import Mathlib

/-!
Shallow embedding of the storage layer of the launch_pad project-showcase
application (class `DatabaseStorage` in the server storage module), together
with proofs about the claims of the specification.

Modelling conventions:
* A database table is a list of rows; row order in the list carries no
  meaning (SQL tables are multisets), so "the store returns to its original
  state" is read up to permutation of each table.
* Timestamps (`createdAt`, `updatedAt`, `CURRENT_DATE`) are integers
  (seconds).  Postgres `INTERVAL '7 days'` is `7 * 86400` seconds.
* Columns that are nullable in the schema but always written with their
  defaults by every code path (`viewCount`, `likeCount`, `commentCount`,
  `isActive`, `createdAt`, `updatedAt`) are modelled as non-null fields.
* `Like` rows are modelled by their `(projectId, userId)` payload; the
  serial `id` and `createdAt` columns of a like are never read by any
  operation or claim.  A list may contain duplicate `(projectId, userId)`
  pairs: the schema declares no composite-unique constraint on the likes
  table, so such states are admissible.
* The `author`/`category` LEFT JOINs and the `isLiked` enrichment of the
  feed queries do not change which project rows are returned or their
  order (both joins are on primary keys), so the feed queries are modelled
  as returning the project rows themselves.
* SQL `ORDER BY` returns some permutation of the rows that is sorted for
  the given key; it is modelled with `List.insertionSort`, one such
  permutation.
* The `toggleLike` read-back (`project.likeCount || 0`) dereferences a row
  that may be absent; the absent case (a JavaScript `TypeError` after the
  mutations already landed) is modelled by returning `none` together with
  the mutated store.  On an `Int` field, `x || 0` equals `x` (JavaScript
  only replaces `0` by `0` and `null` by `0`).
-/

namespace LaunchPad

/-- One row of the `projects` table.  The free-text payload columns
(`content`, `imageUrl`, `videoUrl`, `demoUrl`, `contactInfo`) are never read
by any modelled operation or claim and are omitted. -/
structure ProjectRow where
  id : Nat
  title : String
  description : String
  categoryId : Option Nat
  authorId : String
  viewCount : Int
  likeCount : Int
  commentCount : Int
  isActive : Bool
  createdAt : Int
  updatedAt : Int
deriving DecidableEq, Repr

/-- One row of the `likes` table, modelled by its payload columns. -/
structure LikeRow where
  projectId : Nat
  userId : String
deriving DecidableEq, Repr

/-- One row of the `comments` table. -/
structure CommentRow where
  id : Nat
  content : String
  projectId : Nat
  authorId : String
  parentId : Option Nat
  isActive : Bool
  createdAt : Int
  updatedAt : Int
deriving DecidableEq, Repr

/-- The relational store: the three tables the claims are about. -/
structure Store where
  projects : List ProjectRow
  likes : List LikeRow
  comments : List CommentRow
deriving DecidableEq, Repr

/-- The `timeframe` parameter of `getProjects`. -/
inductive Timeframe where
  | today
  | weekly
  | monthly
  | all
deriving DecidableEq, Repr

/-- Seconds in a day; Postgres `INTERVAL 'n days'` is `n * 86400` seconds. -/
def daySecs : Int := 86400

/-- The `timeCondition` of `DatabaseStorage.getProjects`:
`today` is `createdAt >= CURRENT_DATE`, `weekly` is
`createdAt >= CURRENT_DATE - INTERVAL '7 days'`, `monthly` is
`createdAt >= CURRENT_DATE - INTERVAL '30 days'`, `all` is `true`.
`currentDate` is the timestamp of the start of the current calendar day. -/
def timeCondition (tf : Timeframe) (currentDate : Int) (p : ProjectRow) : Bool :=
  match tf with
  | .today => decide (currentDate ≤ p.createdAt)
  | .weekly => decide (currentDate - 7 * daySecs ≤ p.createdAt)
  | .monthly => decide (currentDate - 30 * daySecs ≤ p.createdAt)
  | .all => true

/-- The category condition of `getProjects`:
`categoryId ? eq(projects.categoryId, categoryId) : sql&true&` — note the
JavaScript truthiness test, so `categoryId = 0` (falsy) applies no filter,
and a row whose `categoryId` column is NULL never matches the equality. -/
def categoryCondition (categoryId : Option Nat) (p : ProjectRow) : Bool :=
  match categoryId with
  | some c => if c = 0 then true else p.categoryId == some c
  | none => true

/-- Sort key of the feed queries, `ORDER BY likeCount DESC, createdAt DESC`:
row `a` may come before row `b` iff `a` has more likes, or equally many and
an equal-or-later creation time. -/
def projOrder (a b : ProjectRow) : Prop :=
  b.likeCount < a.likeCount ∨ (a.likeCount = b.likeCount ∧ b.createdAt ≤ a.createdAt)

instance : DecidableRel projOrder := fun a b =>
  inferInstanceAs (Decidable (_ ∨ _ ∧ _))

instance : IsTotal ProjectRow projOrder :=
  ⟨by intro a b; unfold projOrder; omega⟩

instance : IsTrans ProjectRow projOrder :=
  ⟨by intro a b c; unfold projOrder; omega⟩

/-- Sort key `ORDER BY createdAt DESC` used for comments. -/
def commentOrder (a b : CommentRow) : Prop :=
  b.createdAt ≤ a.createdAt

instance : DecidableRel commentOrder := fun a b =>
  inferInstanceAs (Decidable (_ ≤ _))

instance : IsTotal CommentRow commentOrder :=
  ⟨by intro a b; unfold commentOrder; omega⟩

instance : IsTrans CommentRow commentOrder :=
  ⟨by intro a b c; unfold commentOrder; omega⟩

/-- Options record of `DatabaseStorage.getProjects`; `none` is JavaScript
`undefined`, for which the destructuring defaults
(`limit = 20, offset = 0, timeframe = 'all'`) kick in. -/
structure GetProjectsOptions where
  categoryId : Option Nat
  limit : Option Nat
  offset : Option Nat
  timeframe : Option Timeframe
  userId : Option String
deriving DecidableEq, Repr

/-- `DatabaseStorage.getProjects`: filter to active projects matching the
category and timeframe conditions, sort by like count then creation time
(both descending), then apply OFFSET and LIMIT. -/
def getProjects (options : GetProjectsOptions) (currentDate : Int) (s : Store) :
    List ProjectRow :=
  let lim := options.limit.getD 20
  let off := options.offset.getD 0
  let tf := options.timeframe.getD .all
  let filtered := s.projects.filter (fun p =>
    p.isActive && categoryCondition options.categoryId p && timeCondition tf currentDate p)
  ((List.insertionSort projOrder filtered).drop off).take lim

/-- Postgres `LIKE` pattern matching over characters: `%` matches any
sequence, `_` matches any single character, a backslash escapes the next
pattern character, and any other character matches itself.  A pattern that
ends in a bare backslash matches nothing (Postgres raises an error there). -/
def likeMatch : List Char → List Char → Bool
  | [], s => s.isEmpty
  | '%' :: p, s => s.tails.any (fun t => likeMatch p t)
  | '_' :: p, s =>
    match s with
    | [] => false
    | _ :: s' => likeMatch p s'
  | '\\' :: c :: p, s =>
    match s with
    | [] => false
    | d :: s' => c == d && likeMatch p s'
  | ['\\'], _ => false
  | c :: p, s =>
    match s with
    | [] => false
    | d :: s' => c == d && likeMatch p s'

/-- Postgres `lower` on a character sequence (ASCII case folding). -/
def lowerChars (l : List Char) : List Char := l.map Char.toLower

/-- The `ilike(column, &%query%&)` condition of `searchProjects`:
case-insensitive `LIKE` of the column against the pattern `%query%`. -/
def ilikeContains (query s : String) : Bool :=
  likeMatch ('%' :: lowerChars query.data ++ ['%']) (lowerChars s.data)

/-- `DatabaseStorage.searchProjects`: active projects whose title or
description matches `%query%` case-insensitively, sorted and paginated
exactly like `getProjects`. -/
def searchProjects (query : String) (limit offset : Option Nat) (s : Store) :
    List ProjectRow :=
  let lim := limit.getD 20
  let off := offset.getD 0
  let filtered := s.projects.filter (fun p =>
    p.isActive && (ilikeContains query p.title || ilikeContains query p.description))
  ((List.insertionSort projOrder filtered).drop off).take lim

/-- The JavaScript truthiness test `if (comment.parentId)` used by
`getComments` to separate replies from roots: `null`/`undefined` and `0`
are falsy. -/
def truthyParent : Option Nat → Bool
  | none => false
  | some k => k != 0

/-- `DatabaseStorage.getComments`: fetch the active comments of the
project ordered by `createdAt` descending, split them into roots and
replies by truthiness of `parentId`, attach each reply to the first root
whose `id` equals its `parentId` (replies matching no root are dropped),
and sort each reply list by `createdAt` descending. -/
def getComments (projectId : Nat) (s : Store) : List (CommentRow × List CommentRow) :=
  let allComments := List.insertionSort commentOrder
    (s.comments.filter (fun c => c.projectId == projectId && c.isActive))
  let rootComments := allComments.filter (fun c => !truthyParent c.parentId)
  let replies := allComments.filter (fun c => truthyParent c.parentId)
  rootComments.map (fun r =>
    (r, List.insertionSort commentOrder
      (replies.filter (fun rep =>
        match rootComments.find? (fun c => c.id == rep.parentId.getD 0) with
        | some r' => decide (r' = r)
        | none => false))))

/-- `DatabaseStorage.incrementViewCount`:
`UPDATE projects SET view_count = view_count + 1 WHERE id = $id`. -/
def incrementViewCount (id : Nat) (s : Store) : Store :=
  { s with projects := s.projects.map (fun p =>
      if p.id = id then { p with viewCount := p.viewCount + 1 } else p) }

/-- `DatabaseStorage.deleteComment`: soft-delete
(`UPDATE comments SET is_active = false WHERE id = $id RETURNING *`); the
returned boolean is `!!deletedComment`, whether any row matched. -/
def deleteComment (id : Nat) (s : Store) : Bool × Store :=
  (s.comments.any (fun c => c.id == id),
   { s with comments := s.comments.map (fun c =>
       if c.id = id then { c with isActive := false } else c) })

/-- `DatabaseStorage.updateComment`: set `content` and `updatedAt` on the
matching row. -/
def updateComment (id : Nat) (content : String) (now : Int) (s : Store) : Store :=
  { s with comments := s.comments.map (fun c =>
      if c.id = id then { c with content := content, updatedAt := now } else c) }

/-- `DatabaseStorage.createComment`: insert the comment row and increment
the `commentCount` of its project. -/
def createComment (c : CommentRow) (s : Store) : Store :=
  { s with
    comments := s.comments ++ [c],
    projects := s.projects.map (fun p =>
      if p.id = c.projectId then { p with commentCount := p.commentCount + 1 } else p) }

/-- `DatabaseStorage.createProject`: insert the project row. -/
def createProject (p : ProjectRow) (s : Store) : Store :=
  { s with projects := s.projects ++ [p] }

/-- `DatabaseStorage.deleteProject`: soft-delete the project row. -/
def deleteProject (id : Nat) (s : Store) : Bool × Store :=
  (s.projects.any (fun p => p.id == id),
   { s with projects := s.projects.map (fun p =>
       if p.id = id then { p with isActive := false } else p) })

/-- The `WHERE project_id = $projectId AND user_id = $userId` condition on
the likes table used by `toggleLike`. -/
def likeMatches (projectId : Nat) (userId : String) (l : LikeRow) : Bool :=
  l.projectId == projectId && l.userId == userId

/-- `DatabaseStorage.toggleLike`: select the existing like rows for
`(projectId, userId)`; if any exist, delete them all and decrement the
project's `likeCount`, otherwise insert one and increment it; finally read
the authoritative `likeCount` back from the projects table.  When the
read-back finds no project row the JavaScript code throws after the
mutations already landed; that is the `none` result. -/
def toggleLike (projectId : Nat) (userId : String) (s : Store) :
    Option (Bool × Int) × Store :=
  let existing := s.likes.filter (likeMatches projectId userId)
  if existing.length > 0 then
    let s1 : Store :=
      { s with likes := s.likes.filter (fun l => !likeMatches projectId userId l) }
    let s2 : Store := { s1 with projects := s1.projects.map (fun p =>
      if p.id = projectId then { p with likeCount := p.likeCount - 1 } else p) }
    match s2.projects.find? (fun p => p.id == projectId) with
    | some p => (some (false, p.likeCount), s2)
    | none => (none, s2)
  else
    let s1 : Store := { s with likes := s.likes ++ [⟨projectId, userId⟩] }
    let s2 : Store := { s1 with projects := s1.projects.map (fun p =>
      if p.id = projectId then { p with likeCount := p.likeCount + 1 } else p) }
    match s2.projects.find? (fun p => p.id == projectId) with
    | some p => (some (true, p.likeCount), s2)
    | none => (none, s2)

/-- The mutating storage operations, for stating invariants over arbitrary
sequences of sequential calls. -/
inductive Op where
  | toggleLike (projectId : Nat) (userId : String)
  | incrementViewCount (id : Nat)
  | createComment (c : CommentRow)
  | updateComment (id : Nat) (content : String) (now : Int)
  | deleteComment (id : Nat)
  | createProject (p : ProjectRow)
  | deleteProject (id : Nat)

/-- Effect of one storage operation on the store (returned values
discarded). -/
def Op.apply : Op → Store → Store
  | .toggleLike pid uid, s => (LaunchPad.toggleLike pid uid s).2
  | .incrementViewCount id, s => LaunchPad.incrementViewCount id s
  | .createComment c, s => LaunchPad.createComment c s
  | .updateComment id content now, s => LaunchPad.updateComment id content now s
  | .deleteComment id, s => (LaunchPad.deleteComment id s).2
  | .createProject p, s => LaunchPad.createProject p s
  | .deleteProject id, s => (LaunchPad.deleteProject id s).2

/-- Apply a finite sequence of sequential storage operations. -/
def applyOps (ops : List Op) (s : Store) : Store :=
  ops.foldl (fun s op => op.apply s) s

/-- Apply a finite sequence of sequential `toggleLike` calls. -/
def applyToggles (calls : List (Nat × String)) (s : Store) : Store :=
  calls.foldl (fun s c => (toggleLike c.1 c.2 s).2) s

/-- Number of like rows referencing a project. -/
def likesFor (likes : List LikeRow) (pid : Nat) : Nat :=
  (likes.filter (fun l => l.projectId == pid)).length

/-- The consistency invariant of the spec for one project: its denormalized
`likeCount` equals the number of like rows referencing it. -/
def projConsistent (s : Store) (pid : Nat) : Prop :=
  ∀ p ∈ s.projects, p.id = pid → p.likeCount = (likesFor s.likes pid : Int)

/-- At most one like row per `(pid, u)` pair, for a fixed project. -/
def uniqueLikesFor (s : Store) (pid : Nat) : Prop :=
  ∀ u : String, (s.likes.filter (likeMatches pid u)).length ≤ 1

/-- At most one like row per `(projectId, userId)` pair, globally. -/
def uniqueLikes (s : Store) : Prop :=
  ∀ (pid : Nat) (u : String), (s.likes.filter (likeMatches pid u)).length ≤ 1

/-- Characters with no special meaning in a SQL `LIKE` pattern. -/
def literalChar (c : Char) : Bool :=
  !(c == '%' || c == '_' || c == '\\')

/-- A sample active project used by witnesses. -/
def wProj : ProjectRow :=
  ⟨1, "Alpha", "first project", none, "a", 0, 0, 0, true, 100, 100⟩

/-- A sample store with one active project, no likes and no comments. -/
def wStore : Store := ⟨[wProj], [], []⟩

/-- A store whose likes table holds two rows for the same
`(projectId, userId)` pair (the schema has no composite-unique constraint
on the likes table, so this state is admissible), with the like counter
consistent with the row count. -/
def dupStore : Store :=
  ⟨[⟨1, "t", "d", none, "a", 0, 2, 0, true, 100, 100⟩],
   [⟨1, "u"⟩, ⟨1, "u"⟩], []⟩

/-- A comment whose `parentId` is `0`: present but matching no comment id
(serial ids start at 1); `parentId` has no foreign-key constraint in the
schema, so the state is admissible. -/
def zeroParentComment : CommentRow := ⟨5, "hi", 1, "a", some 0, true, 10, 10⟩

/-- Store holding only `zeroParentComment`. -/
def zeroParentStore : Store := ⟨[], [], [zeroParentComment]⟩

/-- Root comment for the comment-tree witness. -/
def wRoot : CommentRow := ⟨10, "r", 1, "a", none, true, 50, 50⟩

/-- Reply to `wRoot` for the comment-tree witness. -/
def wReply : CommentRow := ⟨11, "x", 1, "a", some 10, true, 60, 60⟩

/-- Comment whose `parentId` (99) matches no root. -/
def wOrphan : CommentRow := ⟨12, "y", 1, "a", some 99, true, 70, 70⟩

/-- Store for the comment-tree witness. -/
def wCommentStore : Store := ⟨[], [], [wRoot, wReply, wOrphan]⟩

/-- A project whose title is `axb`. -/
def axbProj : ProjectRow := ⟨1, "axb", "zz", none, "a", 0, 0, 0, true, 100, 100⟩

/-- Store with one active project whose title is `axb`. -/
def axbStore : Store := ⟨[axbProj], [], []⟩

/-- Project created exactly `CURRENT_DATE - 7 days` for `currentDate = 700000`. -/
def weekOldProj : ProjectRow := ⟨2, "o", "o", none, "a", 0, 0, 0, true, 700000 - 7 * 86400, 0⟩

/-- Store holding only `weekOldProj`. -/
def weekOldStore : Store := ⟨[weekOldProj], [], []⟩

end LaunchPad

namespace LaunchPad

/-! ### General helper lemmas -/

theorem filter_of_filter_not {α : Type} (f q : α → Bool)
    (h : ∀ a, q a = true → f a = false) (l : List α) :
    List.filter q (l.filter fun a => !f a) = l.filter q := by
  induction l with
  | nil => rfl
  | cons a l ih =>
    by_cases hq : q a = true
    · have hf := h a hq
      simp [List.filter_cons, hf, hq, ih]
    · simp only [Bool.not_eq_true] at hq
      by_cases hf : f a = true <;> simp [List.filter_cons, hf, hq, ih]

theorem length_filter_of_filter_not_add {α : Type} (f q : α → Bool)
    (h : ∀ a, f a = true → q a = true) (l : List α) :
    (List.filter q (l.filter fun a => !f a)).length + (l.filter f).length
      = (l.filter q).length := by
  induction l with
  | nil => rfl
  | cons a l ih =>
    by_cases hf : f a = true
    · have hq := h a hf
      have h1 : (a :: l).filter (fun x => !f x) = l.filter (fun x => !f x) := by
        simp [List.filter_cons, hf]
      have h2 : (a :: l).filter f = a :: l.filter f := by simp [List.filter_cons, hf]
      have h3 : (a :: l).filter q = a :: l.filter q := by simp [List.filter_cons, hq]
      rw [h1, h2, h3, List.length_cons, List.length_cons]
      omega
    · have hfb : f a = false := by simpa using hf
      have h1 : (a :: l).filter (fun x => !f x) = a :: l.filter (fun x => !f x) := by
        simp [List.filter_cons, hfb]
      have h2 : (a :: l).filter f = l.filter f := by simp [List.filter_cons, hfb]
      rw [h1, h2]
      by_cases hq : q a = true
      · have h3 : (a :: l).filter q = a :: l.filter q := by simp [List.filter_cons, hq]
        have h4 : List.filter q (a :: l.filter fun x => !f x)
            = a :: List.filter q (l.filter fun x => !f x) := by simp [List.filter_cons, hq]
        rw [h3, h4, List.length_cons, List.length_cons]
        omega
      · have hqb : q a = false := by simpa using hq
        have h3 : (a :: l).filter q = l.filter q := by simp [List.filter_cons, hqb]
        have h4 : List.filter q (a :: l.filter fun x => !f x)
            = List.filter q (l.filter fun x => !f x) := by simp [List.filter_cons, hqb]
        rw [h3, h4]
        omega

theorem map_if_id_of_forall {α : Type} (g : α → α) (c : α → Prop) [DecidablePred c]
    (l : List α) (h : ∀ a ∈ l, ¬c a) :
    (l.map fun a => if c a then g a else a) = l := by
  have := List.map_congr_left (l := l)
    (f := fun a => if c a then g a else a) (g := id)
    (fun a ha => by simp [if_neg (h a ha)])
  simpa using this

/-! ### C8: deleteComment is a pure soft-delete -/

/-- C8: for every comment id, `deleteComment` sets that comment's
`isActive` to `false` and changes nothing else: all other fields of the
comment (including `updatedAt`) are unchanged, every other comment is
unchanged, and the projects table — hence every project's `commentCount` —
and the likes table are unchanged. -/
theorem deleteComment_soft_delete_frame (id : Nat) (s : Store) :
    ((deleteComment id s).2.projects = s.projects) ∧
    ((deleteComment id s).2.likes = s.likes) ∧
    (∀ c' ∈ (deleteComment id s).2.comments, ∃ c ∈ s.comments,
       c'.id = c.id ∧ c'.content = c.content ∧ c'.projectId = c.projectId ∧
       c'.authorId = c.authorId ∧ c'.parentId = c.parentId ∧
       c'.createdAt = c.createdAt ∧ c'.updatedAt = c.updatedAt ∧
       (c.id = id → c'.isActive = false) ∧ (c.id ≠ id → c' = c)) ∧
    (∀ c ∈ s.comments, (c.id ≠ id → c ∈ (deleteComment id s).2.comments) ∧
       (c.id = id → { c with isActive := false } ∈ (deleteComment id s).2.comments)) := by
  refine ⟨rfl, rfl, ?_, ?_⟩
  · intro c' hc'
    simp only [deleteComment, List.mem_map] at hc'
    obtain ⟨c, hc, he⟩ := hc'
    refine ⟨c, hc, ?_⟩
    by_cases hid : c.id = id
    · rw [if_pos hid] at he
      subst he
      simp [hid]
    · rw [if_neg hid] at he
      subst he
      simp [hid]
  · intro c hc
    constructor
    · intro hne
      simp only [deleteComment, List.mem_map]
      exact ⟨c, hc, by rw [if_neg hne]⟩
    · intro hid
      simp only [deleteComment, List.mem_map]
      exact ⟨c, hc, by rw [if_pos hid]⟩

/-- C8 witness: a concrete instance of the frame part of
`deleteComment_soft_delete_frame`. -/
theorem deleteComment_soft_delete_frame_witness :
    (deleteComment 5 zeroParentStore).2.projects = zeroParentStore.projects ∧
    { zeroParentComment with isActive := false } ∈ (deleteComment 5 zeroParentStore).2.comments :=
  ⟨(deleteComment_soft_delete_frame 5 zeroParentStore).1,
   ((deleteComment_soft_delete_frame 5 zeroParentStore).2.2.2
     zeroParentComment (by decide)).2 (by decide)⟩

/-! ### C9: incrementViewCount -/

/-- C9: `incrementViewCount` adds exactly 1 to the `viewCount` of the
project with the given id — whether or not that project is active (no
conjunct below mentions `isActive`) — leaves every other field and every
other row unchanged, and is a no-op when no project has that id (zero rows
affected; the operation is a total function, so it completes without
error). -/
theorem incrementViewCount_spec (id : Nat) (s : Store) :
    ((incrementViewCount id s).likes = s.likes) ∧
    ((incrementViewCount id s).comments = s.comments) ∧
    (∀ p' ∈ (incrementViewCount id s).projects, ∃ p ∈ s.projects,
       p'.id = p.id ∧ p'.title = p.title ∧ p'.description = p.description ∧
       p'.categoryId = p.categoryId ∧ p'.authorId = p.authorId ∧
       p'.likeCount = p.likeCount ∧ p'.commentCount = p.commentCount ∧
       p'.isActive = p.isActive ∧ p'.createdAt = p.createdAt ∧
       p'.updatedAt = p.updatedAt ∧
       (p.id = id → p'.viewCount = p.viewCount + 1) ∧ (p.id ≠ id → p' = p)) ∧
    (∀ p ∈ s.projects, (p.id ≠ id → p ∈ (incrementViewCount id s).projects) ∧
       (p.id = id →
         { p with viewCount := p.viewCount + 1 } ∈ (incrementViewCount id s).projects)) ∧
    ((∀ p ∈ s.projects, p.id ≠ id) → incrementViewCount id s = s) := by
  refine ⟨rfl, rfl, ?_, ?_, ?_⟩
  · intro p' hp'
    simp only [incrementViewCount, List.mem_map] at hp'
    obtain ⟨p, hp, he⟩ := hp'
    refine ⟨p, hp, ?_⟩
    by_cases hid : p.id = id
    · rw [if_pos hid] at he
      subst he
      simp [hid]
    · rw [if_neg hid] at he
      subst he
      simp [hid]
  · intro p hp
    constructor
    · intro hne
      simp only [incrementViewCount, List.mem_map]
      exact ⟨p, hp, by rw [if_neg hne]⟩
    · intro hid
      simp only [incrementViewCount, List.mem_map]
      exact ⟨p, hp, by rw [if_pos hid]⟩
  · intro hall
    show { s with projects := _ } = s
    rw [map_if_id_of_forall _ (fun p => p.id = id) s.projects hall]

/-- C9 witness: `incrementViewCount` on an id matching no project row is a
no-op, on the concrete store `wStore`. -/
theorem incrementViewCount_spec_witness :
    incrementViewCount 99 wStore = wStore :=
  (incrementViewCount_spec 99 wStore).2.2.2.2 (by decide)

/-! ### C10: deleteComment is idempotent -/

/-- C10: `deleteComment` is idempotent and does not distinguish
already-deleted comments: a second consecutive call returns the same
boolean and leaves the store unchanged, and the returned boolean is `true`
exactly when some comment row with that id exists (active or not). -/
theorem deleteComment_idempotent (id : Nat) (s : Store) :
    ((deleteComment id (deleteComment id s).2).2 = (deleteComment id s).2) ∧
    ((deleteComment id (deleteComment id s).2).1 = (deleteComment id s).1) ∧
    ((deleteComment id s).1 = true ↔ ∃ c ∈ s.comments, c.id = id) := by
  have hid : ∀ c : CommentRow,
      (if c.id = id then { c with isActive := false } else c).id = c.id := by
    intro c
    by_cases h : c.id = id <;> simp [h]
  refine ⟨?_, ?_, ?_⟩
  · simp only [deleteComment, List.map_map]
    congr 1
    apply List.map_congr_left
    intro c _
    by_cases h : c.id = id <;> simp [h]
  · simp only [deleteComment, List.any_map]
    congr 1
    funext c
    simp [hid c]
  · simp only [deleteComment, List.any_eq_true, beq_iff_eq]

/-- C10 witness: deleting the same comment twice on the concrete store
`wCommentStore` leaves the store where the first delete put it. -/
theorem deleteComment_idempotent_witness :
    (deleteComment 10 (deleteComment 10 wCommentStore).2).2
      = (deleteComment 10 wCommentStore).2 :=
  (deleteComment_idempotent 10 wCommentStore).1

/-! ### Branch characterization of toggleLike -/

theorem toggleLike_snd_likes (pid : Nat) (u : String) (s : Store) :
    ((toggleLike pid u s).2).likes =
      if (s.likes.filter (likeMatches pid u)).length > 0 then
        s.likes.filter (fun l => !likeMatches pid u l)
      else s.likes ++ [⟨pid, u⟩] := by
  simp only [toggleLike]
  split <;> split <;> rfl

theorem toggleLike_snd_projects (pid : Nat) (u : String) (s : Store) :
    ((toggleLike pid u s).2).projects =
      if (s.likes.filter (likeMatches pid u)).length > 0 then
        s.projects.map (fun p => if p.id = pid then { p with likeCount := p.likeCount - 1 } else p)
      else
        s.projects.map (fun p => if p.id = pid then { p with likeCount := p.likeCount + 1 } else p) := by
  simp only [toggleLike]
  split <;> split <;> rfl

theorem toggleLike_snd_comments (pid : Nat) (u : String) (s : Store) :
    ((toggleLike pid u s).2).comments = s.comments := by
  simp only [toggleLike]
  split <;> split <;> rfl

theorem toggleLike_fst_pos (pid : Nat) (u : String) (s : Store)
    (h : (s.likes.filter (likeMatches pid u)).length > 0) :
    (toggleLike pid u s).1 =
      (((toggleLike pid u s).2).projects.find? (fun p => p.id == pid)).map
        (fun p => (false, p.likeCount)) := by
  simp only [toggleLike]
  rw [if_pos h]
  split
  · next p heq => rw [heq]; rfl
  · next heq => rw [heq]; rfl

theorem toggleLike_fst_neg (pid : Nat) (u : String) (s : Store)
    (h : ¬(s.likes.filter (likeMatches pid u)).length > 0) :
    (toggleLike pid u s).1 =
      (((toggleLike pid u s).2).projects.find? (fun p => p.id == pid)).map
        (fun p => (true, p.likeCount)) := by
  simp only [toggleLike]
  rw [if_neg h]
  split
  · next p heq => rw [heq]; rfl
  · next heq => rw [heq]; rfl

theorem likeMatches_self (pid : Nat) (u : String) : likeMatches pid u ⟨pid, u⟩ = true := by
  simp [likeMatches]

theorem eq_of_likeMatches {pid : Nat} {u : String} {l : LikeRow}
    (h : likeMatches pid u l = true) : l = ⟨pid, u⟩ := by
  cases l with
  | mk lp lu =>
    simp only [likeMatches, Bool.and_eq_true, beq_iff_eq] at h
    simp [h.1, h.2]

theorem likeMatches_projectId {pid : Nat} {u : String} {l : LikeRow}
    (h : likeMatches pid u l = true) : (l.projectId == pid) = true := by
  simp only [likeMatches, Bool.and_eq_true] at h
  exact h.1

theorem filter_likeMatches_eq_singleton {pid : Nat} {u : String} {L : List LikeRow}
    (h1 : (L.filter (likeMatches pid u)).length ≤ 1)
    (h0 : (L.filter (likeMatches pid u)).length > 0) :
    L.filter (likeMatches pid u) = [⟨pid, u⟩] := by
  have hlen : (L.filter (likeMatches pid u)).length = 1 := by omega
  obtain ⟨a, ha⟩ := List.length_eq_one.mp hlen
  have hmem : a ∈ L.filter (likeMatches pid u) := by rw [ha]; exact List.mem_singleton_self a
  have := eq_of_likeMatches (List.mem_filter.mp hmem).2
  rw [ha, this]

theorem setLikeCount_eq_self {p : ProjectRow} {x : Int} (h : x = p.likeCount) :
    ({ p with likeCount := x } : ProjectRow) = p := by
  cases p
  subst h
  rfl

theorem map_like_sub_then_add (pid : Nat) (l : List ProjectRow) :
    ((l.map fun p => if p.id = pid then { p with likeCount := p.likeCount - 1 } else p).map
      (fun p => if p.id = pid then { p with likeCount := p.likeCount + 1 } else p)) = l := by
  rw [List.map_map]
  have h : ∀ p ∈ l,
      ((fun p : ProjectRow => if p.id = pid then { p with likeCount := p.likeCount + 1 } else p) ∘
       (fun p : ProjectRow => if p.id = pid then { p with likeCount := p.likeCount - 1 } else p)) p
        = id p := by
    intro p _
    by_cases hid : p.id = pid
    · simp only [Function.comp, if_pos hid, id]
      exact setLikeCount_eq_self (p := p) (x := p.likeCount - 1 + 1) (by omega)
    · simp only [Function.comp, if_neg hid, id]
  rw [List.map_congr_left h, List.map_id]

theorem map_like_add_then_sub (pid : Nat) (l : List ProjectRow) :
    ((l.map fun p => if p.id = pid then { p with likeCount := p.likeCount + 1 } else p).map
      (fun p => if p.id = pid then { p with likeCount := p.likeCount - 1 } else p)) = l := by
  rw [List.map_map]
  have h : ∀ p ∈ l,
      ((fun p : ProjectRow => if p.id = pid then { p with likeCount := p.likeCount - 1 } else p) ∘
       (fun p : ProjectRow => if p.id = pid then { p with likeCount := p.likeCount + 1 } else p)) p
        = id p := by
    intro p _
    by_cases hid : p.id = pid
    · simp only [Function.comp, if_pos hid, id]
      exact setLikeCount_eq_self (p := p) (x := p.likeCount + 1 - 1) (by omega)
    · simp only [Function.comp, if_neg hid, id]
  rw [List.map_congr_left h, List.map_id]

theorem filter_not_likeMatches_of_nil {pid : Nat} {u : String} {L : List LikeRow}
    (hnil : L.filter (likeMatches pid u) = []) :
    L.filter (fun l => !likeMatches pid u l) = L := by
  apply List.filter_eq_self.mpr
  intro a ha
  have := List.filter_eq_nil_iff.mp hnil a ha
  simp [this]

theorem filter_likeMatches_filter_not (pid : Nat) (u : String) (L : List LikeRow) :
    List.filter (likeMatches pid u) (L.filter fun l => !likeMatches pid u l) = [] := by
  rw [List.filter_filter]
  have h : ∀ a ∈ L, (likeMatches pid u a && !likeMatches pid u a) = false :=
    fun a _ => Bool.and_not_self _
  rw [List.filter_congr h, List.filter_false]

theorem likeMatches_false_of_ne {pid q : Nat} {u v : String}
    (hqq : ¬(q = pid ∧ v = u)) : likeMatches pid u ⟨q, v⟩ = false := by
  apply Bool.eq_false_iff.mpr
  intro hx
  exact hqq (by simpa [likeMatches, Bool.and_eq_true, beq_iff_eq] using hx)

/-- Instance making the per-project counter invariant checkable by `decide`
on concrete stores. -/
instance (s : Store) (pid : Nat) : Decidable (projConsistent s pid) :=
  inferInstanceAs
    (Decidable (∀ p ∈ s.projects, p.id = pid → p.likeCount = (likesFor s.likes pid : Int)))

/-- One sequential `toggleLike` call preserves, for each project, both the
counter consistency invariant and at-most-one-like-per-user. -/
theorem toggle_step_consistent (pid q : Nat) (v : String) (s : Store)
    (hcons : projConsistent s pid) (huniq : uniqueLikesFor s pid) :
    projConsistent (toggleLike q v s).2 pid ∧ uniqueLikesFor (toggleLike q v s).2 pid := by
  by_cases hb : (s.likes.filter (likeMatches q v)).length > 0
  · -- unlike branch: rows for (q, v) deleted, counter of q decremented
    have hlikes : ((toggleLike q v s).2).likes
        = s.likes.filter (fun l => !likeMatches q v l) := by
      rw [toggleLike_snd_likes, if_pos hb]
    have hprojects : ((toggleLike q v s).2).projects
        = s.projects.map
            (fun p => if p.id = q then { p with likeCount := p.likeCount - 1 } else p) := by
      rw [toggleLike_snd_projects, if_pos hb]
    constructor
    · intro p' hp' hpid
      rw [hprojects, List.mem_map] at hp'
      obtain ⟨p, hp, he⟩ := hp'
      rw [hlikes]
      by_cases hq : q = pid
      · subst hq
        have himp : ∀ a : LikeRow, likeMatches q v a = true → (a.projectId == q) = true :=
          fun a ha => likeMatches_projectId ha
        have hadd := length_filter_of_filter_not_add (likeMatches q v)
          (fun l => l.projectId == q) himp s.likes
        have hone : (s.likes.filter (likeMatches q v)).length = 1 := by
          have := huniq v
          omega
        by_cases hpq : p.id = q
        · rw [if_pos hpq] at he
          rw [← he]
          show p.likeCount - 1 = _
          have hlc := hcons p hp hpq
          unfold likesFor at hlc ⊢
          omega
        · rw [if_neg hpq] at he
          rw [← he] at hpid
          exact absurd hpid hpq
      · have hfix : List.filter (fun l => l.projectId == pid)
            (s.likes.filter fun l => !likeMatches q v l)
              = s.likes.filter (fun l => l.projectId == pid) := by
          apply filter_of_filter_not
          intro a ha
          have hap : a.projectId = pid := by simpa [beq_iff_eq] using ha
          apply Bool.eq_false_iff.mpr
          intro hx
          have hx' : a.projectId = q ∧ a.userId = v := by
            simpa [likeMatches, Bool.and_eq_true, beq_iff_eq] using hx
          exact hq (hx'.1.symm.trans hap)
        unfold likesFor
        rw [hfix]
        by_cases hpq : p.id = q
        · rw [if_pos hpq] at he
          rw [← he] at hpid
          exact absurd (hpq.symm.trans hpid) hq
        · rw [if_neg hpq] at he
          rw [← he] at hpid
          rw [← he]
          exact hcons p hp hpid
    · intro u
      rw [hlikes]
      calc (List.filter (likeMatches pid u)
              (s.likes.filter fun l => !likeMatches q v l)).length
          ≤ (s.likes.filter (likeMatches pid u)).length :=
            List.Sublist.length_le (List.Sublist.filter _ (List.filter_sublist s.likes))
        _ ≤ 1 := huniq u
  · -- like branch: one row inserted, counter of q incremented
    have hnil : s.likes.filter (likeMatches q v) = [] := by
      rw [← List.length_eq_zero]
      omega
    have hlikes : ((toggleLike q v s).2).likes = s.likes ++ [⟨q, v⟩] := by
      rw [toggleLike_snd_likes, if_neg hb]
    have hprojects : ((toggleLike q v s).2).projects
        = s.projects.map
            (fun p => if p.id = q then { p with likeCount := p.likeCount + 1 } else p) := by
      rw [toggleLike_snd_projects, if_neg hb]
    constructor
    · intro p' hp' hpid
      rw [hprojects, List.mem_map] at hp'
      obtain ⟨p, hp, he⟩ := hp'
      rw [hlikes]
      unfold likesFor
      rw [List.filter_append]
      by_cases hq : q = pid
      · subst hq
        have hx : List.filter (fun l => l.projectId == q) [(⟨q, v⟩ : LikeRow)]
            = [⟨q, v⟩] := by simp
        rw [hx]
        by_cases hpq : p.id = q
        · rw [if_pos hpq] at he
          rw [← he]
          show p.likeCount + 1 = _
          have hlc := hcons p hp hpq
          unfold likesFor at hlc
          rw [List.length_append]
          simp only [List.length_cons, List.length_nil]
          omega
        · rw [if_neg hpq] at he
          rw [← he] at hpid
          exact absurd hpid hpq
      · have hqb : ((⟨q, v⟩ : LikeRow).projectId == pid) = false := by
          apply Bool.eq_false_iff.mpr
          intro hx
          exact hq (by simpa [beq_iff_eq] using hx)
        have hx : List.filter (fun l => l.projectId == pid) [(⟨q, v⟩ : LikeRow)] = [] := by
          simp [List.filter_cons, hqb]
        rw [hx, List.append_nil]
        by_cases hpq : p.id = q
        · rw [if_pos hpq] at he
          rw [← he] at hpid
          exact absurd (hpq.symm.trans hpid) hq
        · rw [if_neg hpq] at he
          rw [← he] at hpid
          rw [← he]
          exact hcons p hp hpid
    · intro u
      rw [hlikes, List.filter_append]
      by_cases hqq : q = pid ∧ v = u
      · obtain ⟨h1, h2⟩ := hqq
        subst h1
        subst h2
        rw [hnil, List.nil_append]
        simpa using List.length_filter_le (likeMatches q v) [⟨q, v⟩]
      · have hgx : likeMatches pid u ⟨q, v⟩ = false := likeMatches_false_of_ne hqq
        have hfs : List.filter (likeMatches pid u) [(⟨q, v⟩ : LikeRow)] = [] := by
          simp [List.filter_cons, hgx]
        rw [hfs, List.append_nil]
        exact huniq u

/-! ### C1: like counter consistency under sequential toggleLike -/

/-- C1 (amended): for every project, after any finite sequence of
sequential `toggleLike` calls starting from a state where the project's
`likeCount` equals the number of like rows referencing it AND at most one
like row per user references it (the uniqueness the schema fails to
enforce), the project's `likeCount` again equals the number of like rows
referencing it. -/
theorem toggleLike_seq_likeCount_consistent (calls : List (Nat × String)) (s : Store)
    (pid : Nat) (hcons : projConsistent s pid) (huniq : uniqueLikesFor s pid) :
    projConsistent (applyToggles calls s) pid := by
  have main : ∀ (cs : List (Nat × String)) (t : Store),
      projConsistent t pid → uniqueLikesFor t pid →
      projConsistent (applyToggles cs t) pid ∧ uniqueLikesFor (applyToggles cs t) pid := by
    intro cs
    induction cs with
    | nil => intro t h1 h2; exact ⟨h1, h2⟩
    | cons c cs ih =>
      intro t h1 h2
      have hstep := toggle_step_consistent pid c.1 c.2 t h1 h2
      have hfold : applyToggles (c :: cs) t = applyToggles cs (toggleLike c.1 c.2 t).2 := rfl
      rw [hfold]
      exact ih _ hstep.1 hstep.2
  exact (main calls s hcons huniq).1

/-- C1 counterexample: the claim as stated (which assumes only counter
consistency of the initial state, not per-user uniqueness of like rows)
fails.  `dupStore` holds two like rows for `(1, "u")` and `likeCount = 2`,
so its counter is consistent; one `toggleLike(1, "u")` deletes both rows
(`DELETE ... WHERE project_id = 1 AND user_id = 'u'` removes every match)
but decrements the counter only once, leaving `likeCount = 1` with zero
rows. -/
theorem toggleLike_seq_likeCount_consistent_counterexample :
    projConsistent dupStore 1 ∧
    ¬ projConsistent (applyToggles [(1, "u")] dupStore) 1 := by
  constructor
  · decide
  · decide

/-- C1 witness: the amended theorem applied to the concrete one-project
store `wStore` and one toggle call. -/
theorem toggleLike_seq_likeCount_consistent_witness :
    projConsistent (applyToggles [(1, "u1")] wStore) 1 :=
  toggleLike_seq_likeCount_consistent [(1, "u1")] wStore 1 (by decide)
    (fun u => by simp [wStore, uniqueLikesFor])

/-! ### C2: toggleLike is an involution per user -/

/-- C2 (amended): for every `(projectId, userId)` and every store state in
which a project row with that id exists and at most one like row exists
for the pair (the uniqueness the schema fails to enforce), calling
`toggleLike` twice returns the store to its original logical state (the
projects and comments tables are unchanged; the likes table is returned up
to permutation — a SQL table is a multiset of rows), and the second call
returns exactly the pre-first-call liked state and `likeCount` of that
project. -/
theorem toggleLike_involution (pid : Nat) (u : String) (s : Store) (p₀ : ProjectRow)
    (hfind : s.projects.find? (fun p => p.id == pid) = some p₀)
    (huniq : (s.likes.filter (likeMatches pid u)).length ≤ 1) :
    ((toggleLike pid u (toggleLike pid u s).2).2.projects = s.projects) ∧
    ((toggleLike pid u (toggleLike pid u s).2).2.likes.Perm s.likes) ∧
    ((toggleLike pid u (toggleLike pid u s).2).2.comments = s.comments) ∧
    ((toggleLike pid u (toggleLike pid u s).2).1
      = some (s.likes.any (likeMatches pid u), p₀.likeCount)) := by
  by_cases hb : (s.likes.filter (likeMatches pid u)).length > 0
  · -- initially liked: first call deletes, second call re-inserts
    have hsingle : s.likes.filter (likeMatches pid u) = [⟨pid, u⟩] :=
      filter_likeMatches_eq_singleton huniq hb
    have hlikes1 : ((toggleLike pid u s).2).likes
        = s.likes.filter (fun l => !likeMatches pid u l) := by
      rw [toggleLike_snd_likes, if_pos hb]
    have hproj1 : ((toggleLike pid u s).2).projects
        = s.projects.map
            (fun p => if p.id = pid then { p with likeCount := p.likeCount - 1 } else p) := by
      rw [toggleLike_snd_projects, if_pos hb]
    have hb2 : ¬ (((toggleLike pid u s).2).likes.filter (likeMatches pid u)).length > 0 := by
      rw [hlikes1, filter_likeMatches_filter_not]
      simp
    have hlikes2 : ((toggleLike pid u (toggleLike pid u s).2).2).likes
        = ((toggleLike pid u s).2).likes ++ [⟨pid, u⟩] := by
      rw [toggleLike_snd_likes, if_neg hb2]
    have hproj2 : ((toggleLike pid u (toggleLike pid u s).2).2).projects = s.projects := by
      rw [toggleLike_snd_projects, if_neg hb2, hproj1, map_like_sub_then_add]
    have hperm : ((toggleLike pid u (toggleLike pid u s).2).2).likes.Perm s.likes := by
      rw [hlikes2, hlikes1]
      refine List.Perm.trans List.perm_append_comm ?_
      have h := List.filter_append_perm (likeMatches pid u) s.likes
      rw [hsingle] at h
      exact h
    refine ⟨hproj2, hperm, ?_, ?_⟩
    · rw [toggleLike_snd_comments, toggleLike_snd_comments]
    · have hany : s.likes.any (likeMatches pid u) = true := by
        rw [List.any_eq_true]
        have hmem : (⟨pid, u⟩ : LikeRow) ∈ s.likes.filter (likeMatches pid u) := by
          rw [hsingle]
          exact List.mem_singleton_self _
        exact ⟨⟨pid, u⟩, (List.mem_filter.mp hmem).1, likeMatches_self pid u⟩
      rw [toggleLike_fst_neg _ _ _ hb2, hproj2, hfind, hany]
      rfl
  · -- initially not liked: first call inserts, second call deletes
    have hnil : s.likes.filter (likeMatches pid u) = [] := by
      rw [← List.length_eq_zero]
      omega
    have hlikes1 : ((toggleLike pid u s).2).likes = s.likes ++ [⟨pid, u⟩] := by
      rw [toggleLike_snd_likes, if_neg hb]
    have hproj1 : ((toggleLike pid u s).2).projects
        = s.projects.map
            (fun p => if p.id = pid then { p with likeCount := p.likeCount + 1 } else p) := by
      rw [toggleLike_snd_projects, if_neg hb]
    have hfilter1 : ((toggleLike pid u s).2).likes.filter (likeMatches pid u)
        = [⟨pid, u⟩] := by
      rw [hlikes1, List.filter_append, hnil, List.nil_append]
      simp [List.filter_cons, likeMatches_self]
    have hb2 : (((toggleLike pid u s).2).likes.filter (likeMatches pid u)).length > 0 := by
      rw [hfilter1]
      simp
    have hlikes2 : ((toggleLike pid u (toggleLike pid u s).2).2).likes = s.likes := by
      rw [toggleLike_snd_likes, if_pos hb2, hlikes1, List.filter_append]
      rw [filter_not_likeMatches_of_nil hnil]
      have : List.filter (fun l => !likeMatches pid u l) [(⟨pid, u⟩ : LikeRow)] = [] := by
        simp [List.filter_cons, likeMatches_self]
      rw [this, List.append_nil]
    have hproj2 : ((toggleLike pid u (toggleLike pid u s).2).2).projects = s.projects := by
      rw [toggleLike_snd_projects, if_pos hb2, hproj1, map_like_add_then_sub]
    refine ⟨hproj2, by rw [hlikes2], ?_, ?_⟩
    · rw [toggleLike_snd_comments, toggleLike_snd_comments]
    · have hany : s.likes.any (likeMatches pid u) = false := by
        rw [List.any_eq_false]
        exact List.filter_eq_nil_iff.mp hnil
      rw [toggleLike_fst_pos _ _ _ hb2, hproj2, hfind, hany]
      rfl

/-- C2 counterexample: with two like rows for the same pair in the likes
table (the schema has no composite-unique constraint) the double toggle is
not an involution: after `toggleLike(1, "u")` twice, `dupStore`'s likes
table holds one row where it held two, so the store is not returned to its
original state. -/
theorem toggleLike_involution_counterexample :
    (toggleLike 1 "u" (toggleLike 1 "u" dupStore).2).2.likes.length = 1 ∧
    dupStore.likes.length = 2 ∧
    ¬ (toggleLike 1 "u" (toggleLike 1 "u" dupStore).2).2.likes.Perm dupStore.likes := by
  refine ⟨by decide, by decide, ?_⟩
  intro h
  exact absurd h.length_eq (by decide)

/-- C2 witness: the amended involution applied to `wStore` (project 1,
`likeCount = 0`, no prior like): the second call returns the original
not-liked state and count, and the projects table is restored. -/
theorem toggleLike_involution_witness :
    (toggleLike 1 "u1" (toggleLike 1 "u1" wStore).2).2.projects = wStore.projects ∧
    (toggleLike 1 "u1" (toggleLike 1 "u1" wStore).2).1 = some (false, 0) := by
  have h := toggleLike_involution 1 "u1" wStore wProj (by decide) (by decide)
  refine ⟨h.1, ?_⟩
  rw [h.2.2.2]
  decide

/-! ### C6: at most one like row per (projectId, userId) -/

/-- Preservation of per-pair uniqueness of like rows by one storage
operation; only `toggleLike` touches the likes table. -/
theorem op_preserves_uniqueLikes (op : Op) (s : Store) (h : uniqueLikes s) :
    uniqueLikes (op.apply s) := by
  cases op with
  | toggleLike q v =>
    intro pid u
    show (((toggleLike q v s).2).likes.filter (likeMatches pid u)).length ≤ 1
    rw [toggleLike_snd_likes]
    by_cases hb : (s.likes.filter (likeMatches q v)).length > 0
    · rw [if_pos hb]
      calc (List.filter (likeMatches pid u)
              (s.likes.filter fun l => !likeMatches q v l)).length
          ≤ (s.likes.filter (likeMatches pid u)).length :=
            List.Sublist.length_le (List.Sublist.filter _ (List.filter_sublist s.likes))
        _ ≤ 1 := h pid u
    · rw [if_neg hb, List.filter_append]
      have hnil : s.likes.filter (likeMatches q v) = [] := by
        rw [← List.length_eq_zero]
        omega
      by_cases hqq : q = pid ∧ v = u
      · obtain ⟨h1, h2⟩ := hqq
        subst h1
        subst h2
        rw [hnil, List.nil_append]
        simpa using List.length_filter_le (likeMatches q v) [⟨q, v⟩]
      · have hgx : likeMatches pid u ⟨q, v⟩ = false := likeMatches_false_of_ne hqq
        have hfs : List.filter (likeMatches pid u) [(⟨q, v⟩ : LikeRow)] = [] := by
          simp [List.filter_cons, hgx]
        rw [hfs, List.append_nil]
        exact h pid u
  | incrementViewCount id => exact h
  | createComment c => exact h
  | updateComment id content now => exact h
  | deleteComment id => exact h
  | createProject p => exact h
  | deleteProject id => exact h

/-- C6: at most one like row exists per `(projectId, userId)` pair in
every state reachable by sequential application of the storage operations
(in particular `toggleLike`), starting from a state satisfying the
uniqueness.  Note the schema itself declares no composite-unique
constraint; the invariant is maintained by the operations alone. -/
theorem storageOps_unique_like_invariant (ops : List Op) (s : Store)
    (h : uniqueLikes s) : uniqueLikes (applyOps ops s) := by
  induction ops generalizing s with
  | nil => exact h
  | cons op ops ih =>
    have hstep := op_preserves_uniqueLikes op s h
    have hfold : applyOps (op :: ops) s = applyOps ops (op.apply s) := rfl
    rw [hfold]
    exact ih _ hstep

/-- C6 witness: the invariant theorem applied to a concrete two-operation
sequence from the empty-likes store `wStore`, instantiated at the pair
`(1, "u1")`. -/
theorem storageOps_unique_like_invariant_witness :
    ((applyOps [Op.toggleLike 1 "u1", Op.toggleLike 2 "u1"] wStore).likes.filter
        (likeMatches 1 "u1")).length ≤ 1 :=
  storageOps_unique_like_invariant [Op.toggleLike 1 "u1", Op.toggleLike 2 "u1"] wStore
    (fun pid u => by simp [wStore]) 1 "u1"

/-! ### Sorting and pagination helpers for the feed queries -/

theorem paged_sorted (filtered : List ProjectRow) (off lim : Nat) :
    List.Sorted projOrder (((List.insertionSort projOrder filtered).drop off).take lim) := by
  have hs : List.Sorted projOrder (List.insertionSort projOrder filtered) :=
    List.sorted_insertionSort projOrder filtered
  have hsub : (((List.insertionSort projOrder filtered).drop off).take lim).Sublist
      (List.insertionSort projOrder filtered) :=
    (List.take_sublist _ _).trans (List.drop_sublist _ _)
  exact List.Pairwise.sublist hsub hs

theorem mem_paged {x : ProjectRow} {filtered : List ProjectRow} {off lim : Nat}
    (h : x ∈ ((List.insertionSort projOrder filtered).drop off).take lim) : x ∈ filtered :=
  (List.perm_insertionSort projOrder filtered).mem_iff.mp
    (((List.take_sublist _ _).trans (List.drop_sublist _ _)).subset h)

theorem paged_eq_sorted {filtered : List ProjectRow} {off lim : Nat}
    (hoff : off = 0) (hlim : filtered.length ≤ lim) :
    ((List.insertionSort projOrder filtered).drop off).take lim
      = List.insertionSort projOrder filtered := by
  subst hoff
  rw [List.drop_zero]
  apply List.take_of_length_le
  rw [(List.perm_insertionSort projOrder filtered).length_eq]
  exact hlim

/-! ### C3: shape of the getProjects result -/

/-- C3: for every input filter, the list returned by `getProjects`
contains only projects with `isActive = true`, contains at most `limit`
rows (default 20), and for any two adjacent results the earlier one has an
equal-or-greater `likeCount`, with equal-or-later `createdAt` on ties. -/
theorem getProjects_spec (options : GetProjectsOptions) (currentDate : Int) (s : Store)
    (r : List ProjectRow) (hr : r = getProjects options currentDate s) :
    (∀ p ∈ r, p.isActive = true) ∧
    r.length ≤ options.limit.getD 20 ∧
    (∀ i : Nat, ∀ h : i + 1 < r.length,
       (r.get ⟨i + 1, h⟩).likeCount ≤ (r.get ⟨i, Nat.lt_of_succ_lt h⟩).likeCount ∧
       ((r.get ⟨i, Nat.lt_of_succ_lt h⟩).likeCount = (r.get ⟨i + 1, h⟩).likeCount →
        (r.get ⟨i + 1, h⟩).createdAt ≤ (r.get ⟨i, Nat.lt_of_succ_lt h⟩).createdAt)) := by
  subst hr
  refine ⟨?_, ?_, ?_⟩
  · intro p hp
    simp only [getProjects] at hp
    have hmem := mem_paged hp
    have hcond := (List.mem_filter.mp hmem).2
    simp only [Bool.and_eq_true] at hcond
    exact hcond.1.1
  · simp only [getProjects]
    exact List.length_take_le _ _
  · intro i h
    have hsorted : List.Sorted projOrder (getProjects options currentDate s) := by
      simp only [getProjects]
      exact paged_sorted _ _ _
    have hij := List.pairwise_iff_get.mp hsorted ⟨i, Nat.lt_of_succ_lt h⟩ ⟨i + 1, h⟩
      (Nat.lt_succ_self i)
    unfold projOrder at hij
    constructor
    · omega
    · omega

/-- C3 witness: the page-size bound of `getProjects_spec` at a concrete
store and the default options. -/
theorem getProjects_spec_witness :
    (getProjects ⟨none, none, none, none, none⟩ 0 wStore).length ≤ 20 :=
  (getProjects_spec ⟨none, none, none, none, none⟩ 0 wStore _ rfl).2.1

/-! ### C4: timeframe bounds of getProjects -/

/-- C4 (amended): `getProjects` filters by an inclusive creation-date
lower bound determined by `timeframe`: `today` is the start of the current
calendar day; `weekly` is `CURRENT_DATE - 7 days` (start of the current
calendar day minus 7 days — not `now - 7 days`); `monthly` is
`CURRENT_DATE - 30 days`; `all` applies no date bound.  A project passing
the other filters is returned exactly when it meets the bound (shown here
with offset 0 and a limit at least the table size, so that pagination
drops nothing). -/
theorem getProjects_timeframe_bound (options : GetProjectsOptions) (currentDate : Int)
    (s : Store) (p : ProjectRow) :
    (p ∈ getProjects options currentDate s →
      match options.timeframe.getD .all with
      | .today => currentDate ≤ p.createdAt
      | .weekly => currentDate - 7 * daySecs ≤ p.createdAt
      | .monthly => currentDate - 30 * daySecs ≤ p.createdAt
      | .all => True) ∧
    (options.offset.getD 0 = 0 → s.projects.length ≤ options.limit.getD 20 →
     p ∈ s.projects → p.isActive = true → categoryCondition options.categoryId p = true →
     (match options.timeframe.getD .all with
      | .today => currentDate ≤ p.createdAt
      | .weekly => currentDate - 7 * daySecs ≤ p.createdAt
      | .monthly => currentDate - 30 * daySecs ≤ p.createdAt
      | .all => True) →
     p ∈ getProjects options currentDate s) := by
  constructor
  · intro hp
    simp only [getProjects] at hp
    have hmem := mem_paged hp
    have hcond := (List.mem_filter.mp hmem).2
    simp only [Bool.and_eq_true] at hcond
    have htime := hcond.2
    cases htf : options.timeframe.getD .all
    · rw [htf] at htime
      exact of_decide_eq_true (by simpa [timeCondition] using htime)
    · rw [htf] at htime
      exact of_decide_eq_true (by simpa [timeCondition] using htime)
    · rw [htf] at htime
      exact of_decide_eq_true (by simpa [timeCondition] using htime)
    · trivial
  · intro hoff hlim hp hactive hcat htime
    have htimeb : timeCondition (options.timeframe.getD .all) currentDate p = true := by
      cases htf : options.timeframe.getD .all <;> rw [htf] at htime
      · exact decide_eq_true htime
      · exact decide_eq_true htime
      · exact decide_eq_true htime
      · rfl
    have hmem : p ∈ s.projects.filter (fun p =>
        p.isActive && categoryCondition options.categoryId p
          && timeCondition (options.timeframe.getD .all) currentDate p) :=
      List.mem_filter.mpr ⟨hp, by simp [hactive, hcat, htimeb]⟩
    simp only [getProjects]
    rw [paged_eq_sorted hoff (Nat.le_trans (List.length_filter_le _ _) hlim)]
    exact (List.perm_insertionSort projOrder _).mem_iff.mpr hmem

/-- C4 counterexample: take the calendar day starting at
`CURRENT_DATE = 700000` and the instant `now = 700300` within it.
`weekOldProj` was created at `700000 - 7*86400`, which is strictly before
`now - 7*86400`, yet `getProjects` with `timeframe = weekly` returns it:
the weekly bound implemented is `CURRENT_DATE - 7 days`, not
`now - 7 days` as the claim states. -/
theorem getProjects_timeframe_bound_counterexample :
    ((700000 : Int) ≤ 700300 ∧ (700300 : Int) < 700000 + 86400) ∧
    weekOldProj ∈ getProjects ⟨none, none, none, some .weekly, none⟩ 700000 weekOldStore ∧
    weekOldProj.createdAt < 700300 - 7 * 86400 := by
  refine ⟨by decide, ?_, by decide⟩
  decide

/-- C4 witness: the inclusion direction of the amended bound theorem at a
concrete store with `timeframe = all`. -/
theorem getProjects_timeframe_bound_witness :
    wProj ∈ getProjects ⟨none, none, none, some .all, none⟩ 0 wStore :=
  (getProjects_timeframe_bound ⟨none, none, none, some .all, none⟩ 0 wStore wProj).2
    (by decide) (by decide) (by decide) (by decide) (by decide) trivial

/-! ### C5: getComments two-level tree assembly -/

theorem mem_allComments_facts {c : CommentRow} {pid : Nat} {s : Store}
    (h : c ∈ List.insertionSort commentOrder
      (s.comments.filter (fun c => c.projectId == pid && c.isActive))) :
    c.isActive = true ∧ c.projectId = pid := by
  have hmem := (List.perm_insertionSort commentOrder _).mem_iff.mp h
  have hcond := (List.mem_filter.mp hmem).2
  simp only [Bool.and_eq_true, beq_iff_eq] at hcond
  exact ⟨hcond.2, hcond.1⟩

theorem parentId_of_truthy {c : CommentRow} (h : truthyParent c.parentId = true) :
    ∃ k, c.parentId = some k ∧ k ≠ 0 := by
  cases hp : c.parentId with
  | none => rw [hp] at h; simp [truthyParent] at h
  | some k =>
    refine ⟨k, rfl, ?_⟩
    rw [hp] at h
    simpa [truthyParent, bne_iff_ne] using h

/-- C5 (amended): `getComments` returns only active comments of the given
project; every reply in a root's reply list has `parentId` equal to that
root's id; and every comment whose `parentId` is present and nonzero but
does not equal the id of any returned root comment is absent from the
output entirely.  (A comment with `parentId = 0` — falsy in JavaScript —
is treated as a root instead of being dropped.) -/
theorem getComments_tree_spec (pid : Nat) (s : Store) :
    (∀ pr ∈ getComments pid s,
       pr.1.isActive = true ∧ pr.1.projectId = pid ∧
       ∀ c ∈ pr.2, c.isActive = true ∧ c.projectId = pid ∧ c.parentId = some pr.1.id) ∧
    (∀ c ∈ s.comments, c.isActive = true → c.projectId = pid →
       ∀ k : Nat, c.parentId = some k → k ≠ 0 →
       (∀ pr ∈ getComments pid s, pr.1.id ≠ k) →
       ∀ pr ∈ getComments pid s, c ≠ pr.1 ∧ c ∉ pr.2) := by
  constructor
  · intro pr hpr
    simp only [getComments, List.mem_map] at hpr
    obtain ⟨r, hroot, he⟩ := hpr
    rw [← he]
    have hrall := (List.mem_filter.mp hroot).1
    have hrfacts := mem_allComments_facts hrall
    refine ⟨hrfacts.1, hrfacts.2, ?_⟩
    intro c hc
    have hcf := (List.perm_insertionSort commentOrder _).mem_iff.mp hc
    have hcrep := (List.mem_filter.mp hcf).1
    have hcpred := (List.mem_filter.mp hcf).2
    have hcall := (List.mem_filter.mp hcrep).1
    have hctruthy := (List.mem_filter.mp hcrep).2
    have hcfacts := mem_allComments_facts hcall
    refine ⟨hcfacts.1, hcfacts.2, ?_⟩
    obtain ⟨k, hk, hk0⟩ := parentId_of_truthy hctruthy
    cases hfind : (List.insertionSort commentOrder
        (s.comments.filter fun c => c.projectId == pid && c.isActive)).filter
          (fun c => !truthyParent c.parentId) |>.find?
            (fun cc => cc.id == c.parentId.getD 0) with
    | none => rw [hfind] at hcpred; simp at hcpred
    | some r' =>
      rw [hfind] at hcpred
      have hr' : r' = r := of_decide_eq_true hcpred
      have hid := List.find?_some hfind
      rw [hr', hk] at hid
      simp only [Option.getD_some, beq_iff_eq] at hid
      rw [hk, hid]
  · intro c hc hact hproj k hpk hk0 hnoroot pr hpr
    simp only [getComments, List.mem_map] at hpr
    obtain ⟨r, hroot, he⟩ := hpr
    have hrpred := (List.mem_filter.mp hroot).2
    constructor
    · intro heq
      have heq' : c = r := by rw [← he] at heq; exact heq
      rw [heq'] at hpk
      rw [hpk] at hrpred
      simp [truthyParent, bne_iff_ne, hk0] at hrpred
    · intro hmemrep
      rw [← he] at hmemrep
      have hcf := (List.perm_insertionSort commentOrder _).mem_iff.mp hmemrep
      have hcpred := (List.mem_filter.mp hcf).2
      cases hfind : (List.insertionSort commentOrder
          (s.comments.filter fun c => c.projectId == pid && c.isActive)).filter
            (fun c => !truthyParent c.parentId) |>.find?
              (fun cc => cc.id == c.parentId.getD 0) with
      | none => rw [hfind] at hcpred; simp at hcpred
      | some r' =>
        rw [hfind] at hcpred
        have hr' : r' = r := of_decide_eq_true hcpred
        have hid := List.find?_some hfind
        rw [hr', hpk] at hid
        simp only [Option.getD_some, beq_iff_eq] at hid
        have hprmem : pr ∈ getComments pid s := by
          simp only [getComments, List.mem_map]
          exact ⟨r, hroot, he⟩
        apply hnoroot pr hprmem
        rw [← he]
        exact hid

/-- C5 counterexample: a comment whose `parentId` is present (`some 0`)
and equals no returned root id is nevertheless returned (as a root):
JavaScript treats `parentId = 0` as falsy, so the claim that every such
comment is absent from the output fails. -/
theorem getComments_tree_counterexample :
    zeroParentComment.parentId = some 0 ∧
    (zeroParentComment, ([] : List CommentRow)) ∈ getComments 1 zeroParentStore ∧
    (∀ pr ∈ getComments 1 zeroParentStore, pr.1.id ≠ 0) := by
  exact ⟨rfl, by decide, by decide⟩

/-- C5 witness: on `wCommentStore` the amended theorem shows the orphan
reply (parentId 99, matching no root) is absent from the returned tree. -/
theorem getComments_tree_spec_witness :
    ((wRoot, [wReply]) ∈ getComments 1 wCommentStore) ∧
    wOrphan ≠ wRoot ∧ wOrphan ∉ [wReply] :=
  ⟨by decide,
   (getComments_tree_spec 1 wCommentStore).2 wOrphan (by decide) (by decide) (by decide)
     99 (by decide) (by decide) (by decide) (wRoot, [wReply]) (by decide)⟩

/-! ### LIKE pattern lemmas for C7 -/

theorem literalChar_spec {c : Char} (h : literalChar c = true) :
    c ≠ '%' ∧ c ≠ '_' ∧ c ≠ '\\' := by
  have h' : (¬c = '%' ∧ ¬c = '_') ∧ ¬c = '\\' := by simpa [literalChar] using h
  exact ⟨h'.1.1, h'.1.2, h'.2⟩

theorem literalChar_of_ne {c : Char} (h1 : c ≠ '%') (h2 : c ≠ '_') (h3 : c ≠ '\\') :
    literalChar c = true := by
  simp [literalChar, h1, h2, h3]

theorem likeMatch_literal_cons {c : Char} (p s' : List Char) (d : Char)
    (h1 : c ≠ '%') (h2 : c ≠ '_') (h3 : c ≠ '\\') :
    likeMatch (c :: p) (d :: s') = (c == d && likeMatch p s') := by
  rw [likeMatch.eq_def]
  split
  · next heq => simp at heq
  · next heq => simp at heq; exact absurd heq.1 h1
  · next heq => simp at heq; exact absurd heq.1 h2
  · next heq => simp at heq; exact absurd heq.1 h3
  · next heq => simp at heq; exact absurd heq.1 h3
  · next c' p' heq =>
    injection heq with e1 e2
    subst e1
    subst e2
    rfl

theorem likeMatch_literal_nil {c : Char} (p : List Char)
    (h1 : c ≠ '%') (h2 : c ≠ '_') (h3 : c ≠ '\\') :
    likeMatch (c :: p) [] = false := by
  rw [likeMatch.eq_def]
  split
  · next heq => simp at heq
  · next heq => simp at heq; exact absurd heq.1 h1
  · next heq => simp at heq; exact absurd heq.1 h2
  · next heq => simp at heq; exact absurd heq.1 h3
  · next heq => simp at heq; exact absurd heq.1 h3
  · next c' p' heq =>
    injection heq with e1 e2
    subst e1
    subst e2
    rfl

theorem likeMatch_append_percent {q : List Char} (hq : ∀ c ∈ q, literalChar c = true) :
    ∀ s, (likeMatch (q ++ ['%']) s = true ↔ q <+: s) := by
  induction q with
  | nil =>
    intro s
    constructor
    · intro _
      exact List.nil_prefix
    · intro _
      rw [show likeMatch (([] : List Char) ++ ['%']) s
          = s.tails.any (fun t => likeMatch [] t) from rfl]
      rw [List.any_eq_true]
      exact ⟨[], (List.mem_tails _ _).mpr List.nil_suffix, rfl⟩
  | cons c q ih =>
    intro s
    obtain ⟨hc1, hc2, hc3⟩ := literalChar_spec (hq c (List.mem_cons_self c q))
    have hq' : ∀ a ∈ q, literalChar a = true := fun a ha => hq a (List.mem_cons_of_mem c ha)
    cases s with
    | nil =>
      rw [show (c :: q) ++ ['%'] = c :: (q ++ ['%']) from rfl]
      rw [likeMatch_literal_nil _ hc1 hc2 hc3]
      simp [List.prefix_nil]
    | cons d s' =>
      rw [show (c :: q) ++ ['%'] = c :: (q ++ ['%']) from rfl]
      rw [likeMatch_literal_cons _ s' d hc1 hc2 hc3]
      rw [List.cons_prefix_cons, Bool.and_eq_true, beq_iff_eq]
      exact and_congr Iff.rfl (ih hq' s')

theorem likeMatch_percent_iff (p : List Char) (s : List Char) :
    likeMatch ('%' :: p) s = true ↔ ∃ t, t <:+ s ∧ likeMatch p t = true := by
  rw [show likeMatch ('%' :: p) s = s.tails.any (fun t => likeMatch p t) from rfl]
  rw [List.any_eq_true]
  constructor
  · rintro ⟨t, ht, hm⟩
    exact ⟨t, (List.mem_tails _ _).mp ht, hm⟩
  · rintro ⟨t, ht, hm⟩
    exact ⟨t, (List.mem_tails _ _).mpr ht, hm⟩

theorem likeMatch_infix_iff {q : List Char} (hq : ∀ c ∈ q, literalChar c = true)
    (s : List Char) :
    likeMatch ('%' :: (q ++ ['%'])) s = true ↔ q <:+: s := by
  rw [likeMatch_percent_iff, List.infix_iff_prefix_suffix]
  constructor
  · rintro ⟨t, ht, hm⟩
    exact ⟨t, (likeMatch_append_percent hq t).mp hm, ht⟩
  · rintro ⟨t, hpre, hsuf⟩
    exact ⟨t, hsuf, (likeMatch_append_percent hq t).mpr hpre⟩

theorem toNat_ofNat_valid {n : Nat} (h : n.isValidChar) : (Char.ofNat n).toNat = n := by
  unfold Char.ofNat
  rw [dif_pos h]
  rfl

theorem literalChar_toLower {c : Char} (h : literalChar c = true) :
    literalChar (Char.toLower c) = true := by
  obtain ⟨h1, h2, h3⟩ := literalChar_spec h
  simp only [Char.toLower]
  split
  · next hrange =>
    have hvalid : (c.toNat + 32).isValidChar := Or.inl (by omega)
    have hval := toNat_ofNat_valid hvalid
    apply literalChar_of_ne
    · intro heq
      have hn := congrArg Char.toNat heq
      rw [hval] at hn
      have h37 : ('%' : Char).toNat = 37 := rfl
      rw [h37] at hn
      omega
    · intro heq
      have hn := congrArg Char.toNat heq
      rw [hval] at hn
      have h95 : ('_' : Char).toNat = 95 := rfl
      rw [h95] at hn
      omega
    · intro heq
      have hn := congrArg Char.toNat heq
      rw [hval] at hn
      have h92 : ('\\' : Char).toNat = 92 := rfl
      rw [h92] at hn
      omega
  · exact h

theorem ilikeContains_iff {q t : String} (hq : ∀ c ∈ q.data, literalChar c = true) :
    ilikeContains q t = true ↔ lowerChars q.data <:+: lowerChars t.data := by
  have hlow : ∀ c ∈ lowerChars q.data, literalChar c = true := by
    intro c hc
    obtain ⟨a, ha, he⟩ := List.mem_map.mp hc
    rw [← he]
    exact literalChar_toLower (hq a ha)
  exact likeMatch_infix_iff hlow (lowerChars t.data)

/-! ### C7: searchProjects -/

/-- C7 (amended): for every query free of the SQL LIKE metacharacters
(`%`, `_`, backslash) and pagination options, `searchProjects` returns
exactly the active projects whose title or description contains the query
as a case-insensitive substring (shown exactly for offset 0 and a limit at
least the table size, at most that set under any pagination), ordered by
`likeCount` descending then `createdAt` descending with no relevance
ranking.  For queries containing a metacharacter, the match is SQL
pattern semantics (`%query%`), not literal substring containment. -/
theorem searchProjects_spec (q : String) (lim off : Option Nat) (s : Store)
    (hq : ∀ c ∈ q.data, literalChar c = true) :
    (∀ p ∈ searchProjects q lim off s,
       p.isActive = true ∧
       (lowerChars q.data <:+: lowerChars p.title.data ∨
        lowerChars q.data <:+: lowerChars p.description.data)) ∧
    (∀ p ∈ s.projects, off.getD 0 = 0 → s.projects.length ≤ lim.getD 20 →
       p.isActive = true →
       (lowerChars q.data <:+: lowerChars p.title.data ∨
        lowerChars q.data <:+: lowerChars p.description.data) →
       p ∈ searchProjects q lim off s) ∧
    (∀ i : Nat, ∀ h : i + 1 < (searchProjects q lim off s).length,
       ((searchProjects q lim off s).get ⟨i + 1, h⟩).likeCount
         ≤ ((searchProjects q lim off s).get ⟨i, Nat.lt_of_succ_lt h⟩).likeCount ∧
       (((searchProjects q lim off s).get ⟨i, Nat.lt_of_succ_lt h⟩).likeCount
           = ((searchProjects q lim off s).get ⟨i + 1, h⟩).likeCount →
        ((searchProjects q lim off s).get ⟨i + 1, h⟩).createdAt
          ≤ ((searchProjects q lim off s).get ⟨i, Nat.lt_of_succ_lt h⟩).createdAt)) := by
  refine ⟨?_, ?_, ?_⟩
  · intro p hp
    simp only [searchProjects] at hp
    have hmem := mem_paged hp
    have hcond := (List.mem_filter.mp hmem).2
    simp only [Bool.and_eq_true, Bool.or_eq_true] at hcond
    refine ⟨hcond.1, ?_⟩
    rcases hcond.2 with hc | hc
    · exact Or.inl ((ilikeContains_iff hq).mp hc)
    · exact Or.inr ((ilikeContains_iff hq).mp hc)
  · intro p hp hoff hlim hactive hmatch
    have hcond : (p.isActive
        && (ilikeContains q p.title || ilikeContains q p.description)) = true := by
      rw [Bool.and_eq_true, Bool.or_eq_true]
      refine ⟨hactive, ?_⟩
      rcases hmatch with hm | hm
      · exact Or.inl ((ilikeContains_iff hq).mpr hm)
      · exact Or.inr ((ilikeContains_iff hq).mpr hm)
    have hmem : p ∈ s.projects.filter (fun p =>
        p.isActive && (ilikeContains q p.title || ilikeContains q p.description)) :=
      List.mem_filter.mpr ⟨hp, hcond⟩
    simp only [searchProjects]
    rw [paged_eq_sorted hoff (Nat.le_trans (List.length_filter_le _ _) hlim)]
    exact (List.perm_insertionSort projOrder _).mem_iff.mpr hmem
  · intro i h
    have hsorted : List.Sorted projOrder (searchProjects q lim off s) := by
      simp only [searchProjects]
      exact paged_sorted _ _ _
    have hij := List.pairwise_iff_get.mp hsorted ⟨i, Nat.lt_of_succ_lt h⟩ ⟨i + 1, h⟩
      (Nat.lt_succ_self i)
    unfold projOrder at hij
    constructor
    · omega
    · omega

/-- C7 counterexample: the claim as stated is false for queries containing
a LIKE metacharacter: `searchProjects "a_b"` returns the project titled
`axb`, whose title and description do not contain `a_b` as a
case-insensitive substring — the underscore acted as the single-character
wildcard. -/
theorem searchProjects_spec_counterexample :
    axbProj ∈ searchProjects "a_b" none none axbStore ∧
    ¬ lowerChars "a_b".data <:+: lowerChars axbProj.title.data ∧
    ¬ lowerChars "a_b".data <:+: lowerChars axbProj.description.data := by
  exact ⟨by decide, by decide, by decide⟩

/-- C7 witness: the inclusion direction at the concrete store `wStore`,
query `alpha` (matching the title `Alpha` case-insensitively). -/
theorem searchProjects_spec_witness :
    wProj ∈ searchProjects "alpha" none none wStore :=
  (searchProjects_spec "alpha" none none wStore (by decide)).2.1 wProj (by decide)
    (by decide) (by decide) (by decide) (Or.inl (by decide))

end LaunchPad
